import Mathlib

/-!
Shallow embedding of the transcribeflow frontend (React/TypeScript client of a
transcription REST backend) in Lean 4, together with theorems checking the
natural-language specification against the code.

Each definition mirrors a function or type of the source; file and line
references are given in the doc comments.  JavaScript-specific behaviour that
matters to the claims is modelled explicitly:
* ISO-8601 timestamps are compared as strings (JS `>=` on strings), modelled
  by `≤` on Lean `String`;
* `x || y` on strings falls back on the empty string, modelled by an explicit
  test against `""`;
* a `fetch` call either returns a parsed value, returns a non-ok response, or
  throws; modelled by the `Fetched` type.
-/

namespace TranscribeFlow

/-- Result of a `fetch` call as observed by the client code: a parsed ok
response, a response with `ok = false` (HTTP error status), or a thrown
exception (network error / JSON parse failure). -/
inductive Fetched (α : Type) where
  | ok (value : α)
  | httpError
  | netError
deriving DecidableEq, Repr

/-- Source `src/frontend/src/lib/api.ts` line 19: the status union type of a
`Transcription`. -/
inductive TranscriptionStatus where
  | draft | queued | processing | diarizing | completed | failed
deriving DecidableEq, Repr

/-- Source `src/frontend/src/lib/api.ts` line 5: the `operation_type` union of an
`LLMOperationSummary` (`"cleanup" | "insights"`). -/
inductive OperationType where
  | cleanup | insights
deriving DecidableEq, Repr

/-- Source `src/frontend/src/lib/api.ts` lines 4-14: `LLMOperationSummary`.
`cost_usd : number | null` becomes `Option ℚ`. -/
structure LLMOperationSummary where
  operation_type : OperationType
  provider : String
  model : String
  template_id : String
  input_tokens : Nat
  output_tokens : Nat
  cost_usd : Option ℚ
  processing_time_seconds : ℚ
  created_at : String
deriving DecidableEq, Repr

/-- Source `src/frontend/src/lib/api.ts` lines 16-37: `Transcription`. -/
structure Transcription where
  id : String
  filename : String
  status : TranscriptionStatus
  engine : String
  model : String
  language : Option String
  initial_prompt : Option String
  created_at : String
  progress : ℚ
  error_message : Option String
  file_size : Option Nat
  duration_seconds : Option ℚ
  compute_device : Option String
  diarization_method : Option String
  processing_time_seconds : Option ℚ
  transcription_time_seconds : Option ℚ
  diarization_time_seconds : Option ℚ
  llm_operations : List LLMOperationSummary
deriving DecidableEq, Repr

/-- An operation record returned by `GET /api/postprocess/operations`
(fields read by the polling loops in `PostProcessingControls.tsx` lines
102-115 and `InsightsControls.tsx` lines 116-124). -/
structure Operation where
  created_at : String
  status : String
  error_message : Option String
  template_id : String
deriving DecidableEq, Repr

/-- Models the JS idiom `em || "Unknown error"` on a nullable string field
(`null`, `undefined` and `""` are falsy). -/
def fallbackError : Option String → String
  | some m => if m = "" then "Unknown error" else m
  | none => "Unknown error"

/-- Whether a fetch result is not a thrown exception. -/
def fetchNoThrow {α : Type} : Fetched α → Bool
  | Fetched.netError => false
  | _ => true

/-- Outcome reported by a status-polling loop when it terminates. -/
inductive LoopReport where
  | success
  | failedOp (toastMessage : String)
  | timeout
deriving DecidableEq, Repr

/-- The `setInterval` polling loop shared by both stages: tick #1, #2, ... are
fed the successive fetch results; `tick` returns `some report` when the body
calls `clearInterval` and reports, `none` when it keeps polling.  The result
is the first terminating tick number with its report, or `none` when the
given trace never terminates the loop. -/
def runLoop {α : Type} (tick : Nat → α → Option LoopReport) :
    Nat → List α → Option (Nat × LoopReport)
  | _, [] => none
  | pollCount, input :: rest =>
    match tick (pollCount + 1) input with
    | some r => some (pollCount + 1, r)
    | none => runLoop tick (pollCount + 1) rest

/-- Lexicographic `<` on character sequences, by code point.  This is the JS
abstract relational comparison on (ASCII) strings, which the source uses to
compare ISO-8601 timestamps. -/
def jsStrLt : List Char → List Char → Bool
  | [], [] => false
  | [], _ :: _ => true
  | _ :: _, [] => false
  | a :: as, b :: bs =>
    if a.toNat < b.toNat then true
    else if b.toNat < a.toNat then false
    else jsStrLt as bs

/-- JS `a >= b` on strings: `¬ (a < b)` in the lexicographic order. -/
def jsStringGe (a b : String) : Bool := ! jsStrLt a.data b.data

namespace PostProcessingControls

/-- Source `PostProcessingControls.tsx` line 89: `const maxPolls = 500`. -/
def maxPolls : Nat := 500

/-- Source `PostProcessingControls.tsx` line 131: the `setInterval` period, 2000 ms. -/
def pollIntervalMs : Nat := 2000

/-- Source `PostProcessingControls.tsx` lines 122-127: the trailing
`if (pollCount >= maxPolls)` timeout check of a poll tick. -/
def timeoutCheck (pollCount : Nat) : Option LoopReport :=
  if maxPolls ≤ pollCount then some LoopReport.timeout else none

/-- Source `PostProcessingControls.tsx` lines 91-131: one tick of the cleanup-stage
polling loop.  A thrown fetch (`Fetched.netError`) lands in the `catch` block,
which skips the timeout check and keeps polling; a non-ok response skips only
the operations check.  A terminal operation is recognised only when
`latestOp.created_at >= startTime`. -/
def cleanupTick (startTime : String) (pollCount : Nat)
    (opsResponse : Fetched (List Operation)) : Option LoopReport :=
  match opsResponse with
  | Fetched.netError => none
  | Fetched.httpError => timeoutCheck pollCount
  | Fetched.ok ops =>
    match ops with
    | [] => timeoutCheck pollCount
    | latestOp :: _ =>
      if jsStringGe latestOp.created_at startTime then
        if latestOp.status = "success" then some LoopReport.success
        else if latestOp.status = "failed" then
          some (LoopReport.failedOp
            ("Post-processing failed: " ++ fallbackError latestOp.error_message))
        else timeoutCheck pollCount
      else timeoutCheck pollCount

/-- The cleanup-stage polling loop run over a trace of fetch results. -/
def runCleanupLoop (startTime : String) (trace : List (Fetched (List Operation))) :
    Option (Nat × LoopReport) :=
  runLoop (cleanupTick startTime) 0 trace

/-- A tick input does not throw (its `fetch`/`json` did not raise). -/
def tickNoThrow : Fetched (List Operation) → Bool
  | Fetched.netError => false
  | _ => true

/-- A tick input carries a terminal operation for the cleanup loop: the newest
operation was created at or after `startTime` and has status `success` or
`failed`. -/
def cleanupTerminalSeen (startTime : String) : Fetched (List Operation) → Bool
  | Fetched.ok (latestOp :: _) =>
    jsStringGe latestOp.created_at startTime &&
      (latestOp.status == "success" || latestOp.status == "failed")
  | _ => false

end PostProcessingControls

namespace InsightsControls

/-- Source `InsightsControls.tsx` line 87: `const maxPolls = 60`. -/
def maxPolls : Nat := 60

/-- Source `InsightsControls.tsx` line 138: the `setInterval` period, 2000 ms. -/
def pollIntervalMs : Nat := 2000

/-- Source `src/frontend/src/lib/api.ts` lines 535-539: `InsightMetadata`, the
shape behind `data.metadata` in the insights polling loop. -/
structure InsightMetadata where
  template_id : String
  template_name : String
  created_at : String
deriving DecidableEq, Repr

/-- The body read from `GET /api/insights/transcriptions/{id}/{template}`
by the polling loop; `data.metadata?.created_at` means `metadata` may be
absent, in which case the comparison is falsy. -/
structure InsightsResponse where
  metadata : Option InsightMetadata
deriving DecidableEq, Repr

/-- Source `InsightsControls.tsx` lines 130-134: the trailing timeout check. -/
def timeoutCheck (pollCount : Nat) : Option LoopReport :=
  if maxPolls ≤ pollCount then some LoopReport.timeout else none

/-- Source `InsightsControls.tsx` lines 109-134: the failure check against the
operations endpoint, followed by the timeout check.  A failed operation is
terminal only when it was created at or after `startTime`, has status
`failed`, and matches the selected template. -/
def opsCheck (startTime selectedTemplate : String) (pollCount : Nat)
    (opsResponse : Fetched (List Operation)) : Option LoopReport :=
  match opsResponse with
  | Fetched.netError => none
  | Fetched.httpError => timeoutCheck pollCount
  | Fetched.ok [] => timeoutCheck pollCount
  | Fetched.ok (latestOp :: _) =>
    if jsStringGe latestOp.created_at startTime &&
        (latestOp.status == "failed") && (latestOp.template_id == selectedTemplate) then
      some (LoopReport.failedOp ("Failed: " ++ fallbackError latestOp.error_message))
    else timeoutCheck pollCount

/-- Source `InsightsControls.tsx` lines 89-138: one tick of the insights polling
loop.  The tick first fetches the insights artifact (success terminal when its
`metadata.created_at >= startTime`), then checks the operations endpoint for a
failure, then the poll ceiling.  A throw at either fetch aborts the rest of
the tick body. -/
def insightsTick (startTime selectedTemplate : String) (pollCount : Nat)
    (input : Fetched InsightsResponse × Fetched (List Operation)) :
    Option LoopReport :=
  match input.1 with
  | Fetched.netError => none
  | Fetched.httpError => opsCheck startTime selectedTemplate pollCount input.2
  | Fetched.ok data =>
    match data.metadata with
    | some md =>
      if jsStringGe md.created_at startTime then some LoopReport.success
      else opsCheck startTime selectedTemplate pollCount input.2
    | none => opsCheck startTime selectedTemplate pollCount input.2

/-- The insights polling loop run over a trace of per-tick fetch results. -/
def runInsightsLoop (startTime selectedTemplate : String)
    (trace : List (Fetched InsightsResponse × Fetched (List Operation))) :
    Option (Nat × LoopReport) :=
  runLoop (insightsTick startTime selectedTemplate) 0 trace

/-- Neither fetch of the tick throws. -/
def tickNoThrow (input : Fetched InsightsResponse × Fetched (List Operation)) :
    Bool :=
  fetchNoThrow input.1 && fetchNoThrow input.2

/-- The insights-file fetch carries the success terminal: a fresh artifact. -/
def fileTerminalSeen (startTime : String) : Fetched InsightsResponse → Bool
  | Fetched.ok data =>
    match data.metadata with
    | some md => jsStringGe md.created_at startTime
    | none => false
  | _ => false

/-- The operations fetch carries the failure terminal: a fresh failed
operation for the selected template. -/
def opsTerminalSeen (startTime selectedTemplate : String) :
    Fetched (List Operation) → Bool
  | Fetched.ok (latestOp :: _) =>
    jsStringGe latestOp.created_at startTime &&
      (latestOp.status == "failed") && (latestOp.template_id == selectedTemplate)
  | _ => false

/-- A tick input carries a terminal observation for the insights loop: a fresh
insights artifact, or a fresh failed operation for the selected template. -/
def terminalSeen (startTime selectedTemplate : String)
    (input : Fetched InsightsResponse × Fetched (List Operation)) : Bool :=
  fileTerminalSeen startTime input.1 ||
    opsTerminalSeen startTime selectedTemplate input.2

end InsightsControls

/-- Mutating REST calls issued by the client components (thin wrappers in
`src/frontend/src/lib/api.ts`); status-polling `GET`s are not state-changing
and are modelled separately by the loop traces. -/
inductive Request where
  | uploadAudio (filename engine model : String)
  | startPostProcessing (transcriptionId templateId : String)
  | generateInsights (transcriptionId templateId source : String)
  | updateSpeakerNames (transcriptionId : String)
      (speaker_names : List (String × String))
  | applyAllSpeakerSuggestions (transcriptionId : String)
  | deleteTranscription (id : String)
deriving DecidableEq, Repr

namespace TranscriptionQueue

/-- Source `TranscriptionQueue.tsx` line 68: `transcriptions.filter((t) => t.status === "draft")`. -/
def drafts (ts : List Transcription) : List Transcription :=
  ts.filter (fun t => t.status = TranscriptionStatus.draft)

/-- Source `TranscriptionQueue.tsx` line 69: the `queued` section. -/
def queued (ts : List Transcription) : List Transcription :=
  ts.filter (fun t => t.status = TranscriptionStatus.queued)

/-- Source `TranscriptionQueue.tsx` lines 70-72:
`["processing", "diarizing"].includes(t.status)`. -/
def inProgress (ts : List Transcription) : List Transcription :=
  ts.filter (fun t =>
    t.status = TranscriptionStatus.processing ∨
    t.status = TranscriptionStatus.diarizing)

/-- Source `TranscriptionQueue.tsx` lines 73-75:
`["completed", "failed"].includes(t.status)`. -/
def completed (ts : List Transcription) : List Transcription :=
  ts.filter (fun t =>
    t.status = TranscriptionStatus.completed ∨
    t.status = TranscriptionStatus.failed)

/-- The component state touched by the 5-second poll (`fetchQueue`,
`TranscriptionQueue.tsx` lines 50-59). -/
structure QueueState where
  transcriptions : List Transcription
  selectedIds : List String
deriving DecidableEq, Repr

/-- Source `fetchQueue`: an ok response replaces the whole `transcriptions` list; a
failed fetch leaves the previous list in place (the `catch` only logs). -/
def fetchQueueUpdate (st : QueueState) (result : Fetched (List Transcription)) :
    QueueState :=
  match result with
  | Fetched.ok data => { st with transcriptions := data }
  | _ => st

end TranscriptionQueue

namespace CompletedItem

/-- Models `op.cost_usd || 0` (a `null` cost contributes nothing). -/
def costOrZero : Option ℚ → ℚ
  | some c => c
  | none => 0

/-- Source `src/unnamed/part_002` line 739 (`CompletedItem`):
`llm_operations?.reduce((sum, op) => sum + (op.cost_usd || 0), 0) || 0`. -/
def totalLLMCost (t : Transcription) : ℚ :=
  t.llm_operations.foldl (fun sum op => sum + costOrZero op.cost_usd) 0

/-- Source `src/unnamed/part_002` line 733: the cleanup partition of the operations. -/
def cleanupOps (t : Transcription) : List LLMOperationSummary :=
  t.llm_operations.filter (fun op => op.operation_type = OperationType.cleanup)

/-- Source `src/unnamed/part_002` line 734: the insights partition of the operations. -/
def insightsOps (t : Transcription) : List LLMOperationSummary :=
  t.llm_operations.filter (fun op => op.operation_type = OperationType.insights)

/-- Cost of a sublist of operations, with `null` contributing nothing. -/
def sumCost (ops : List LLMOperationSummary) : ℚ :=
  (ops.map (fun op => costOrZero op.cost_usd)).sum

end CompletedItem

namespace PostProcessingControls

/-- The `PostProcessingControls` component state involved in starting a
cleanup run (`useState` hooks, lines 36-38). -/
structure ComponentState where
  selectedTemplate : String
  isProcessing : Bool
  showConfirm : Bool
deriving DecidableEq, Repr

/-- Source `PostProcessingControls.tsx` lines 66-83 (`handleProcess`) up to and
including the `startPostProcessing` call: with an existing cleaned version and
no confirm step shown, the handler only reveals the confirm step; with an
empty template selection it only toasts; otherwise it flips the processing
flags and issues the start request. -/
def handleProcess (transcriptionId : String) (hasCleanedVersion : Bool)
    (st : ComponentState) : ComponentState × List Request :=
  if hasCleanedVersion && !st.showConfirm then
    ({ st with showConfirm := true }, [])
  else if st.selectedTemplate = "" then
    (st, [])
  else
    ({ st with isProcessing := true, showConfirm := false },
     [Request.startPostProcessing transcriptionId st.selectedTemplate])

/-- Source `PostProcessingControls.tsx` lines 140-142: `handleCancel`. -/
def handleCancel (st : ComponentState) : ComponentState × List Request :=
  ({ st with showConfirm := false }, [])

end PostProcessingControls

namespace InsightsControls

/-- The `InsightsControls` component state involved in starting a generation
run (`useState` hooks, `src/unnamed/part_005` lines 256-261). -/
structure ComponentState where
  selectedTemplate : String
  selectedSource : String
  isProcessing : Bool
  showConfirm : Bool
deriving DecidableEq, Repr

/-- Source `src/unnamed/part_005` lines 303-319 (`handleGenerate`) up to and
including the `generateInsights` call. -/
def handleGenerate (transcriptionId : String) (hasInsights : Bool)
    (st : ComponentState) : ComponentState × List Request :=
  if hasInsights && !st.showConfirm then
    ({ st with showConfirm := true }, [])
  else if st.selectedTemplate = "" then
    (st, [])
  else
    ({ st with isProcessing := true, showConfirm := false },
     [Request.generateInsights transcriptionId st.selectedTemplate st.selectedSource])

/-- Source `src/unnamed/part_005` lines 385-387: `handleCancel`. -/
def handleCancel (st : ComponentState) : ComponentState × List Request :=
  ({ st with showConfirm := false }, [])

end InsightsControls

/-- Source `src/frontend/src/lib/api.ts` lines 277-287: `SpeakerSuggestion`. -/
structure SpeakerSuggestion where
  speaker_id : String
  display_name : String
  name : Option String
  name_confidence : ℚ
  name_reason : Option String
  role : Option String
  role_confidence : ℚ
  role_reason : Option String
  applied : Bool
deriving DecidableEq, Repr

namespace SpeakerEditor

/-- Source `SpeakerEditor.tsx` lines 22-26: the local speaker row. -/
structure Speaker where
  id : String
  name : String
  color : String
deriving DecidableEq, Repr

/-- JS object spread `{ ...prev, [k]: v }` on a string record: an existing key
keeps its position with the new value, a new key is appended. -/
def jsRecordSet (prev : List (String × String)) (k v : String) :
    List (String × String) :=
  if prev.any (fun p => p.1 = k) then
    prev.map (fun p => if p.1 = k then (k, v) else p)
  else prev ++ [(k, v)]

/-- JS `Map` lookup after `new Map(entries)`: for duplicate keys the last
entry wins. -/
def jsMapGet (entries : List (String × String)) (k : String) : Option String :=
  (entries.reverse.find? (fun p => p.1 = k)).map (fun p => p.2)

/-- Source `suggestionMap.get(s.id) || s.name`: fall back on a missing key and on an
empty display name. -/
def jsMapGetOr (entries : List (String × String)) (k dflt : String) : String :=
  match jsMapGet entries k with
  | some v => if v = "" then dflt else v
  | none => dflt

/-- The `SpeakerEditor` component state involved in the suggestion flows
(`useState` hooks, lines 39-54). -/
structure ComponentState where
  speakers : List Speaker
  suggestions : List SpeakerSuggestion
  savedNames : List (String × String)
deriving DecidableEq, Repr

/-- Source `SpeakerEditor.tsx` lines 110-125: `handleApplySuggestion` followed by the
`saveSpeaker` it awaits — update the matching row's name, drop the suggestion
from the pending list, and issue one `updateSpeakerNames` call for exactly
that speaker (which also records the saved name). -/
def handleApplySuggestion (transcriptionId speakerId : String)
    (st : ComponentState) : ComponentState × List Request :=
  match st.suggestions.find? (fun s => s.speaker_id = speakerId) with
  | none => (st, [])
  | some suggestion =>
    ({ st with
        speakers := st.speakers.map (fun s =>
          if s.id = speakerId then { s with name := suggestion.display_name } else s),
        suggestions := st.suggestions.filter (fun s => ¬ s.speaker_id = speakerId),
        savedNames := jsRecordSet st.savedNames speakerId suggestion.display_name },
     [Request.updateSpeakerNames transcriptionId [(speakerId, suggestion.display_name)]])

/-- Source `SpeakerEditor.tsx` lines 127-161: `handleApplyAll` — one bulk server
call, every row renamed through `suggestionMap.get(s.id) || s.name`, pending
list emptied. -/
def handleApplyAll (transcriptionId : String) (st : ComponentState) :
    ComponentState × List Request :=
  let suggestionMap := st.suggestions.map (fun s => (s.speaker_id, s.display_name))
  ({ st with
      speakers := st.speakers.map (fun s =>
        { s with name := jsMapGetOr suggestionMap s.id s.name }),
      suggestions := [] },
   [Request.applyAllSpeakerSuggestions transcriptionId])

/-- Source `SpeakerEditor.tsx` lines 167-169: `handleDismissSuggestion` — purely
local removal from the pending list. -/
def handleDismissSuggestion (speakerId : String) (st : ComponentState) :
    ComponentState × List Request :=
  ({ st with
      suggestions := st.suggestions.filter (fun s => ¬ s.speaker_id = speakerId) },
   [])

end SpeakerEditor

namespace FileUpload

/-- The observable outcome of one `handleUpload` run
(`FileUpload.tsx` lines 308-328). -/
structure UploadRun where
  requests : List Request
  progressReports : List ℚ
  error : Option String
  filesCleared : Bool
deriving DecidableEq, Repr

/-- The `for` loop of `handleUpload`: files are awaited one at a time in list
order; each file is paired with the outcome its `uploadAudio` call would
produce.  After the `i`-th success (0-based, `completed` successes before it)
the handler reports `((i + 1) / files.length) * 100`; the first failure stops
the loop with that error and leaves the file list as it was. -/
def handleUploadGo (engine model : String) (total completed : Nat) :
    List (String × Except String Unit) → List Request × List ℚ × Option String × Bool
  | [] => ([], [], none, true)
  | (file, result) :: rest =>
    match result with
    | Except.error e => ([Request.uploadAudio file engine model], [], some e, false)
    | Except.ok _ =>
      let r := handleUploadGo engine model total (completed + 1) rest
      (Request.uploadAudio file engine model :: r.1,
       (((completed : ℚ) + 1) / (total : ℚ)) * 100 :: r.2.1,
       r.2.2.1, r.2.2.2)

/-- Source `FileUpload.tsx` lines 308-328: `handleUpload`.  `filesCleared` records
whether `setFiles([])` ran (only when every upload succeeded); an empty
selection returns immediately. -/
def handleUpload (engine model : String)
    (files : List (String × Except String Unit)) : UploadRun :=
  if files.length = 0 then ⟨[], [], none, false⟩
  else
    let r := handleUploadGo engine model files.length 0 files
    ⟨r.1, r.2.1, r.2.2.1, r.2.2.2⟩

end FileUpload

namespace MindmapViewer

/-- Source `MindmapViewer.tsx` lines 111-118: `handleZoomIn`; the handler is a no-op
when no markmap instance is mounted (`mm` null). -/
def handleZoomIn (mmPresent : Bool) (zoom : ℚ) : ℚ :=
  if mmPresent then min (zoom * (13 / 10)) 5 else zoom

/-- Source `MindmapViewer.tsx` lines 120-127: `handleZoomOut`. -/
def handleZoomOut (mmPresent : Bool) (zoom : ℚ) : ℚ :=
  if mmPresent then max (zoom / (13 / 10)) (1 / 5) else zoom

/-- Source `MindmapViewer.tsx` lines 129-135: `handleFit` resets the zoom state to 1
(and calls `mm.fit()`). -/
def handleFit (mmPresent : Bool) (zoom : ℚ) : ℚ :=
  if mmPresent then 1 else zoom

/-- One step of the regex `/\.[^/.]+$/` on the reversed character list: if
the string ends in a dot followed by one or more characters none of which is
`.` or `/`, that suffix (dot included) is removed. -/
def stripExtRev (r : List Char) : List Char :=
  let pre := r.takeWhile (fun c => ¬ (c = '.' ∨ c = '/'))
  match pre, r.dropWhile (fun c => ¬ (c = '.' ∨ c = '/')) with
  | _ :: _, '.' :: rest => rest
  | _, _ => r

/-- Source `filename.replace(/\.[^\/.]+$/, "")`: strip the final extension. -/
def stripExt (s : String) : String :=
  ⟨(stripExtRev s.data.reverse).reverse⟩

/-- Membership in the regex character class `[a-zA-Z0-9-_]`. -/
def isKeptChar (c : Char) : Bool :=
  ('a'.toNat ≤ c.toNat && c.toNat ≤ 'z'.toNat) ||
  ('A'.toNat ≤ c.toNat && c.toNat ≤ 'Z'.toNat) ||
  ('0'.toNat ≤ c.toNat && c.toNat ≤ '9'.toNat) ||
  c = '-' || c = '_'

/-- Source `.replace(/[^a-zA-Z0-9-_]/g, "_")`: every character outside the class is
replaced by an underscore. -/
def sanitize (s : String) : String :=
  ⟨s.data.map (fun c => if isKeptChar c then c else '_')⟩

/-- Source `MindmapViewer.tsx` line 18: `exportName`. -/
def exportName (filename : String) : String :=
  sanitize (stripExt filename)

/-- Source `MindmapViewer.tsx` lines 146-154: the `.md` download is named
`mindmap-${exportName}.md`. -/
def mindmapDownloadName (filename : String) : String :=
  "mindmap-" ++ exportName filename ++ ".md"

end MindmapViewer

namespace InsightsPanel

/-- Source `InsightsPanel.tsx` line 56:
`filename?.replace(...).replace(...) || "insights"`. -/
def exportName (filename : Option String) : String :=
  match filename with
  | some f =>
    let e := MindmapViewer.exportName f
    if e = "" then "insights" else e
  | none => "insights"

/-- Source `InsightsPanel.tsx` lines 67-75: the insights download is named
`insights-${exportName}.md`. -/
def insightsDownloadName (filename : Option String) : String :=
  "insights-" ++ exportName filename ++ ".md"

end InsightsPanel

namespace TranscriptPanel

/-- A transcript segment (`src/frontend/src/lib/api.ts` lines 102-108); the
source's `end` field is named `stop` because `end` is a Lean keyword. -/
structure Segment where
  start : ℚ
  stop : ℚ
  text : String
  speaker : String
  confidence : ℚ
deriving DecidableEq, Repr

/-- Source `TranscriptPanel` (in `PostProcessingControls.tsx`) lines 256-273: the
`while (left <= right)` binary search of `scrollToTimestamp`, run over the
segment start times.  `mid = Math.floor((left + right) / 2)` is Lean's `Int`
floor division by 2; the array read `segments[mid].start` is modelled with a
default of 0 (a separate theorem shows the reads stay in bounds). -/
def bsearchGo (starts : List ℚ) (timestamp : ℚ) (left right : Int)
    (nearest : Nat) : Nat :=
  if h : left ≤ right then
    if starts.getD ((left + right) / 2).toNat 0 = timestamp then
      ((left + right) / 2).toNat
    else if starts.getD ((left + right) / 2).toNat 0 < timestamp then
      bsearchGo starts timestamp ((left + right) / 2 + 1) right
        ((left + right) / 2).toNat
    else
      bsearchGo starts timestamp left ((left + right) / 2 - 1) nearest
  else nearest
termination_by (right + 1 - left).toNat
decreasing_by
  · have h1 : left ≤ (left + right) / 2 := by
      rw [Int.le_ediv_iff_mul_le (by norm_num)]; omega
    have h2 : (left + right) / 2 < right + 1 := by
      rw [Int.ediv_lt_iff_lt_mul (by norm_num)]; omega
    omega
  · have h1 : left ≤ (left + right) / 2 := by
      rw [Int.le_ediv_iff_mul_le (by norm_num)]; omega
    have h2 : (left + right) / 2 < right + 1 := by
      rw [Int.ediv_lt_iff_lt_mul (by norm_num)]; omega
    omega

/-- Source `scrollToTimestamp` lines 253-273: `left = 0`, `right = segments.length -
1`, `nearest = 0`, then the binary search above; its result is the segment
index scrolled into view. -/
def scrollToTimestamp (segments : List Segment) (timestamp : ℚ) : Nat :=
  bsearchGo (segments.map (fun s => s.start)) timestamp 0
    ((segments.length : Int) - 1) 0

/-- Instrumented copy of `bsearchGo` that also reports whether every array
read `segments[mid]` happened at an index inside the list. -/
def bsearchGoChk (starts : List ℚ) (timestamp : ℚ) (left right : Int)
    (nearest : Nat) (ok : Bool) : Nat × Bool :=
  if h : left ≤ right then
    if starts.getD ((left + right) / 2).toNat 0 = timestamp then
      (((left + right) / 2).toNat,
       ok && decide (((left + right) / 2).toNat < starts.length))
    else if starts.getD ((left + right) / 2).toNat 0 < timestamp then
      bsearchGoChk starts timestamp ((left + right) / 2 + 1) right
        ((left + right) / 2).toNat
        (ok && decide (((left + right) / 2).toNat < starts.length))
    else
      bsearchGoChk starts timestamp left ((left + right) / 2 - 1) nearest
        (ok && decide (((left + right) / 2).toNat < starts.length))
  else (nearest, ok)
termination_by (right + 1 - left).toNat
decreasing_by
  · have h1 : left ≤ (left + right) / 2 := by
      rw [Int.le_ediv_iff_mul_le (by norm_num)]; omega
    have h2 : (left + right) / 2 < right + 1 := by
      rw [Int.ediv_lt_iff_lt_mul (by norm_num)]; omega
    omega
  · have h1 : left ≤ (left + right) / 2 := by
      rw [Int.le_ediv_iff_mul_le (by norm_num)]; omega
    have h2 : (left + right) / 2 < right + 1 := by
      rw [Int.ediv_lt_iff_lt_mul (by norm_num)]; omega
    omega

/-- All array reads of `scrollToTimestamp` on this input are in bounds. -/
def scrollReadsInBounds (segments : List Segment) (timestamp : ℚ) : Bool :=
  (bsearchGoChk (segments.map (fun s => s.start)) timestamp 0
    ((segments.length : Int) - 1) 0 true).2

end TranscriptPanel

namespace MindmapViewer

/-- ASCII letter or digit. -/
def isAlphanumChar (c : Char) : Bool :=
  ('a'.toNat ≤ c.toNat && c.toNat ≤ 'z'.toNat) ||
  ('A'.toNat ≤ c.toNat && c.toNat ≤ 'Z'.toNat) ||
  ('0'.toNat ≤ c.toNat && c.toNat ≤ '9'.toNat)

/-- The export-name derivation as the specification words it: strip the final
extension, then replace every non-alphanumeric character.  Stated for
comparison with `exportName`, which is the derivation the code performs. -/
def exportNameClaimed (filename : String) : String :=
  ⟨(stripExt filename).data.map (fun c => if isAlphanumChar c then c else '_')⟩

end MindmapViewer

namespace TranscriptPanel

/-- Length of the longest prefix of values `≤ t`; for a list sorted
ascending by `<` this is the number of elements `≤ t`, and the last index
with value `≤ t` is this number minus one. -/
def prefixLe (t : ℚ) : List ℚ → Nat
  | [] => 0
  | x :: xs => if x ≤ t then prefixLe t xs + 1 else 0

end TranscriptPanel

/-- A concrete two-segment transcript whose segments share a start time:
weakly ascending but not strictly. -/
def sampleSegments : List TranscriptPanel.Segment :=
  [⟨1, 2, "hello", "SPEAKER_00", 1⟩, ⟨1, 3, "world", "SPEAKER_01", 1⟩]

/-- A concrete transcript with strictly increasing segment start times. -/
def sampleSortedSegments : List TranscriptPanel.Segment :=
  [⟨0, 4, "one", "SPEAKER_00", 1⟩, ⟨5, 9, "two", "SPEAKER_01", 1⟩,
   ⟨10, 14, "three", "SPEAKER_00", 1⟩]

/-! ## Concrete sample data

Small concrete values used to instantiate the theorems below on executable
inputs. -/

/-- A concrete cleanup-stage component state with no confirm step shown. -/
def samplePostProcState : PostProcessingControls.ComponentState :=
  ⟨"meeting-notes", false, false⟩

/-- A concrete insights-stage component state with no confirm step shown. -/
def sampleInsightsState : InsightsControls.ComponentState :=
  ⟨"it-meeting", "cleaned", false, false⟩

/-- A concrete failed operation newer than the sample start timestamp. -/
def sampleFailedOp : Operation :=
  ⟨"2024-01-02T10:00:05", "failed", some "rate limited", "it-meeting"⟩

/-- The sample start timestamp used by the loop witnesses. -/
def sampleStartTime : String := "2024-01-02T10:00:00"

/-- A concrete upload selection: the first file succeeds, the second fails. -/
def sampleUploadFiles : List (String × Except String Unit) :=
  [("a.mp3", Except.ok ()), ("b.wav", Except.error "upload failed")]

/-- A concrete pending suggestion for `SPEAKER_00`. -/
def sampleSuggestion : SpeakerSuggestion :=
  ⟨"SPEAKER_00", "Alice (PM)", some "Alice", 9/10, some "introduced herself",
   some "PM", 1/2, none, false⟩

/-- A concrete speaker-editor state: two speakers, one pending suggestion. -/
def sampleEditorState : SpeakerEditor.ComponentState :=
  ⟨[⟨"SPEAKER_00", "Speaker 1", "#ef4444"⟩, ⟨"SPEAKER_01", "Speaker 2", "#3b82f6"⟩],
   [sampleSuggestion],
   [("SPEAKER_00", "Speaker 1"), ("SPEAKER_01", "Speaker 2")]⟩

/-! ## Theorems -/

/-- Claim C7: zoom-in sets the zoom to `min(z * 1.3, 5)` and zoom-out to
`max(z / 1.3, 0.2)`; repeated zoom-in from 1 never exceeds 5 and repeated
zoom-out from 1 never goes below 0.2; each bound is a fixed point of its
operation; fit resets the zoom factor to exactly 1 regardless of the prior
value. -/
theorem spec_C7_zoom_clamped (z : ℚ) (n : Nat) :
    MindmapViewer.handleZoomIn true z = min (z * (13 / 10)) 5
    ∧ MindmapViewer.handleZoomOut true z = max (z / (13 / 10)) (1 / 5)
    ∧ (MindmapViewer.handleZoomIn true)^[n] 1 ≤ 5
    ∧ (1 / 5 : ℚ) ≤ (MindmapViewer.handleZoomOut true)^[n] 1
    ∧ MindmapViewer.handleZoomIn true 5 = 5
    ∧ MindmapViewer.handleZoomOut true (1 / 5) = 1 / 5
    ∧ MindmapViewer.handleFit true z = 1 := by
  refine ⟨rfl, rfl, ?_, ?_, ?_, ?_, rfl⟩
  · induction n with
    | zero => norm_num
    | succ m _ =>
      rw [Function.iterate_succ_apply']
      exact min_le_right _ _
  · induction n with
    | zero => norm_num
    | succ m _ =>
      rw [Function.iterate_succ_apply']
      exact le_max_right _ _
  · show min (5 * (13 / 10) : ℚ) 5 = 5
    norm_num
  · show max ((1 / 5) / (13 / 10) : ℚ) (1 / 5) = 1 / 5
    exact max_eq_right (by norm_num)

theorem foldl_add_costOrZero (l : List LLMOperationSummary) (a : ℚ) :
    l.foldl (fun sum op => sum + CompletedItem.costOrZero op.cost_usd) a
      = a + CompletedItem.sumCost l := by
  induction l generalizing a with
  | nil => simp [CompletedItem.sumCost]
  | cons op rest ih => simp [CompletedItem.sumCost, ih]; ring

theorem sumCost_filter_partition (l : List LLMOperationSummary)
    (p : LLMOperationSummary → Bool) :
    CompletedItem.sumCost (l.filter p)
      + CompletedItem.sumCost (l.filter (fun op => !p op))
      = CompletedItem.sumCost l := by
  induction l with
  | nil => simp [CompletedItem.sumCost]
  | cons op rest ih =>
    by_cases h : p op
    · simp [CompletedItem.sumCost, h] at ih ⊢
      linarith [ih]
    · simp [CompletedItem.sumCost, h] at ih ⊢
      linarith [ih]

/-- Claim C9: the displayed aggregate LLM cost equals the sum of `cost_usd`
over all of the job's LLM operations (`null` contributing nothing), and the
cleanup/insights partition is disjoint and exhaustive: every operation has
type `cleanup` or `insights` and is counted in exactly one partition, so the
two partition costs add up to the total with no double counting. -/
theorem spec_C9_cost_partition (t : Transcription) :
    CompletedItem.totalLLMCost t = CompletedItem.sumCost t.llm_operations
    ∧ CompletedItem.totalLLMCost t
        = CompletedItem.sumCost (CompletedItem.cleanupOps t)
          + CompletedItem.sumCost (CompletedItem.insightsOps t)
    ∧ (∀ op : LLMOperationSummary,
        (CompletedItem.cleanupOps t).count op
          + (CompletedItem.insightsOps t).count op
          = t.llm_operations.count op)
    ∧ (∀ op ∈ t.llm_operations,
        op.operation_type = OperationType.cleanup
          ∨ op.operation_type = OperationType.insights)
    ∧ (∀ op ∈ CompletedItem.cleanupOps t, op ∉ CompletedItem.insightsOps t) := by
  have hins : CompletedItem.insightsOps t
      = t.llm_operations.filter
          (fun op => !(decide (op.operation_type = OperationType.cleanup))) := by
    unfold CompletedItem.insightsOps
    congr 1
    funext op
    cases h : op.operation_type <;> simp [h]
  have htot : CompletedItem.totalLLMCost t = CompletedItem.sumCost t.llm_operations := by
    unfold CompletedItem.totalLLMCost
    rw [foldl_add_costOrZero]
    ring
  refine ⟨htot, ?_, ?_, ?_, ?_⟩
  · rw [htot, hins]
    exact (sumCost_filter_partition t.llm_operations _).symm
  · intro op
    cases h : op.operation_type with
    | cleanup =>
      have h2 : (CompletedItem.insightsOps t).count op = 0 := by
        simp [List.count_eq_zero, CompletedItem.insightsOps, List.mem_filter, h]
      rw [h2, CompletedItem.cleanupOps, List.count_filter (by simp [h])]
      simp
    | insights =>
      have h2 : (CompletedItem.cleanupOps t).count op = 0 := by
        simp [List.count_eq_zero, CompletedItem.cleanupOps, List.mem_filter, h]
      rw [h2, CompletedItem.insightsOps, List.count_filter (by simp [h])]
      simp
  · intro op _
    cases op.operation_type
    · exact Or.inl rfl
    · exact Or.inr rfl
  · intro op hmem
    have h1 := (List.mem_filter.1 hmem).2
    intro hcontra
    have h2 := (List.mem_filter.1 hcontra).2
    simp at h1 h2
    rw [h1] at h2
    exact OperationType.noConfusion h2

theorem count_filter_eq {α : Type} [DecidableEq α] (l : List α) (a : α)
    (p : α → Bool) :
    (l.filter p).count a = if p a then l.count a else 0 := by
  by_cases h : p a
  · rw [List.count_filter h, if_pos h]
  · rw [if_neg h, List.count_eq_zero]
    intro hmem
    exact h (List.of_mem_filter hmem)

/-- Claim C3: every job's status is one of the six enumerated values; the
queue view partitions the fetched list into four display sections, with
`processing` and `diarizing` landing in the single in-progress section; every
job belongs to exactly one section; and the sections are recomputed from the
freshly fetched list each poll (an ok poll replaces the component's list
wholesale, and the sections are functions of that list). -/
theorem spec_C3_queue_partition (ts : List Transcription) (t : Transcription) :
    (t.status = TranscriptionStatus.draft ∨ t.status = TranscriptionStatus.queued
      ∨ t.status = TranscriptionStatus.processing
      ∨ t.status = TranscriptionStatus.diarizing
      ∨ t.status = TranscriptionStatus.completed
      ∨ t.status = TranscriptionStatus.failed)
    ∧ ((TranscriptionQueue.drafts ts).count t
        + (TranscriptionQueue.queued ts).count t
        + (TranscriptionQueue.inProgress ts).count t
        + (TranscriptionQueue.completed ts).count t
        = ts.count t)
    ∧ (t ∈ TranscriptionQueue.inProgress ts ↔
        t ∈ ts ∧ (t.status = TranscriptionStatus.processing
          ∨ t.status = TranscriptionStatus.diarizing))
    ∧ (∀ (st : TranscriptionQueue.QueueState) (l : List Transcription),
        (TranscriptionQueue.fetchQueueUpdate st (Fetched.ok l)).transcriptions = l) := by
  refine ⟨?_, ?_, ?_, fun st l => rfl⟩
  · cases t.status
    · exact Or.inl rfl
    · exact Or.inr (Or.inl rfl)
    · exact Or.inr (Or.inr (Or.inl rfl))
    · exact Or.inr (Or.inr (Or.inr (Or.inl rfl)))
    · exact Or.inr (Or.inr (Or.inr (Or.inr (Or.inl rfl))))
    · exact Or.inr (Or.inr (Or.inr (Or.inr (Or.inr rfl))))
  · unfold TranscriptionQueue.drafts TranscriptionQueue.queued
      TranscriptionQueue.inProgress TranscriptionQueue.completed
    rw [count_filter_eq, count_filter_eq, count_filter_eq, count_filter_eq]
    cases hs : t.status <;> simp [hs]
  · simp only [TranscriptionQueue.inProgress, List.mem_filter,
      decide_eq_true_eq]

/-- Claim C4: with an existing artifact, the first activation of the start
button only reveals the confirm-to-replace step and issues no request, and
choosing No afterwards restores exactly the original component state with no
request ever issued — for the cleanup stage and for the insights stage. -/
theorem spec_C4_confirm_cancel_noop (tid : String)
    (stP : PostProcessingControls.ComponentState)
    (stI : InsightsControls.ComponentState)
    (hP : stP.showConfirm = false) (hI : stI.showConfirm = false) :
    PostProcessingControls.handleProcess tid true stP
      = ({ stP with showConfirm := true }, [])
    ∧ PostProcessingControls.handleCancel { stP with showConfirm := true }
      = (stP, [])
    ∧ InsightsControls.handleGenerate tid true stI
      = ({ stI with showConfirm := true }, [])
    ∧ InsightsControls.handleCancel { stI with showConfirm := true }
      = (stI, []) := by
  obtain ⟨tmplP, procP, confP⟩ := stP
  obtain ⟨tmplI, srcI, procI, confI⟩ := stI
  simp only at hP hI
  subst hP hI
  refine ⟨?_, rfl, ?_, rfl⟩
  · simp [PostProcessingControls.handleProcess]
  · simp [InsightsControls.handleGenerate]

/-- Witness for C4 at a concrete component state on both stages. -/
theorem spec_C4_confirm_cancel_noop_witness :
    samplePostProcState.showConfirm = false
    ∧ sampleInsightsState.showConfirm = false
    ∧ (PostProcessingControls.handleProcess "job-1" true samplePostProcState
        = ({ samplePostProcState with showConfirm := true }, [])
      ∧ PostProcessingControls.handleCancel
          { samplePostProcState with showConfirm := true }
        = (samplePostProcState, [])
      ∧ InsightsControls.handleGenerate "job-1" true sampleInsightsState
        = ({ sampleInsightsState with showConfirm := true }, [])
      ∧ InsightsControls.handleCancel
          { sampleInsightsState with showConfirm := true }
        = (sampleInsightsState, [])) :=
  ⟨rfl, rfl,
   spec_C4_confirm_cancel_noop "job-1" samplePostProcState sampleInsightsState
     rfl rfl⟩

theorem find?_speaker_unique (l : List SpeakerSuggestion) (sid : String)
    (sug : SpeakerSuggestion)
    (hids : (l.map (fun s => s.speaker_id)).Nodup)
    (hmem : sug ∈ l) (hsid : sug.speaker_id = sid) :
    l.find? (fun s => s.speaker_id = sid) = some sug := by
  induction l with
  | nil => cases hmem
  | cons a t ih =>
    simp only [List.map_cons, List.nodup_cons] at hids
    rcases List.mem_cons.1 hmem with rfl | hmemt
    · rw [List.find?_cons_of_pos _ (by simp [hsid])]
    · have hane : ¬ a.speaker_id = sid := by
        intro hcontra
        apply hids.1
        have hmm : sug.speaker_id ∈ List.map (fun s => s.speaker_id) t :=
          List.mem_map_of_mem _ hmemt
        rwa [hsid, ← hcontra] at hmm
      rw [List.find?_cons_of_neg _ (by simp [hane])]
      exact ih hids.2 hmemt

theorem filter_speaker_erase (l : List SpeakerSuggestion) (sid : String)
    (sug : SpeakerSuggestion)
    (hids : (l.map (fun s => s.speaker_id)).Nodup)
    (hmem : sug ∈ l) (hsid : sug.speaker_id = sid) :
    l.filter (fun s => ¬ s.speaker_id = sid) = l.erase sug := by
  induction l with
  | nil => cases hmem
  | cons a t ih =>
    simp only [List.map_cons, List.nodup_cons] at hids
    by_cases ha : a.speaker_id = sid
    · have haeq : sug = a := by
        rcases List.mem_cons.1 hmem with rfl | hmemt
        · rfl
        · exfalso
          apply hids.1
          have hmm : sug.speaker_id ∈ List.map (fun s => s.speaker_id) t :=
            List.mem_map_of_mem _ hmemt
          rwa [hsid, ← ha] at hmm
      subst haeq
      rw [List.filter_cons_of_neg (by simp [ha]), List.erase_cons_head]
      apply List.filter_eq_self.2
      intro s hs
      simp only [decide_not, Bool.not_eq_true', decide_eq_false_iff_not]
      intro hcontra
      apply hids.1
      have hmm : s.speaker_id ∈ List.map (fun x => x.speaker_id) t :=
        List.mem_map_of_mem _ hs
      rwa [hcontra, ← ha] at hmm
    · have hasug : ¬ (a == sug) = true := by
        simp only [beq_iff_eq]
        intro hcontra
        exact ha (hcontra ▸ hsid)
      have hmemt : sug ∈ t := by
        rcases List.mem_cons.1 hmem with rfl | hmemt
        · exact absurd hsid ha
        · exact hmemt
      rw [List.filter_cons_of_pos (by simp [ha]),
        List.erase_cons_tail hasug, ih hids.2 hmemt]

theorem reverse_find?_of_nodup_keys (l : List (String × String)) (k : String)
    (hk : (l.map (fun p => p.1)).Nodup) :
    l.reverse.find? (fun p => p.1 = k) = l.find? (fun p => p.1 = k) := by
  induction l with
  | nil => rfl
  | cons a t ih =>
    simp only [List.map_cons, List.nodup_cons] at hk
    rw [List.reverse_cons, List.find?_append]
    by_cases ha : a.1 = k
    · have hpa : (fun p => decide (p.1 = k)) a = true := by simp [ha]
      have hnone : t.reverse.find? (fun p => p.1 = k) = none := by
        rw [List.find?_eq_none]
        intro p hp
        simp only [decide_eq_true_eq]
        intro hcontra
        apply hk.1
        have hmm : p.1 ∈ List.map (fun q => q.1) t :=
          List.mem_map_of_mem _ (List.mem_reverse.1 hp)
        rwa [hcontra, ← ha] at hmm
      rw [hnone]
      simp [List.find?_cons, ha]
    · simp [List.find?_cons, ha]
      exact ih hk.2

theorem jsMapGetOr_eq_find? (sugs : List SpeakerSuggestion) (k dflt : String)
    (hids : (sugs.map (fun s => s.speaker_id)).Nodup)
    (hne : ∀ s ∈ sugs, s.display_name ≠ "") :
    SpeakerEditor.jsMapGetOr
        (sugs.map (fun s => (s.speaker_id, s.display_name))) k dflt
      = match sugs.find? (fun g => g.speaker_id = k) with
        | some g => g.display_name
        | none => dflt := by
  have hkeys : ((sugs.map (fun s => (s.speaker_id, s.display_name))).map
      (fun p => p.1)).Nodup := by
    rw [List.map_map]
    exact hids
  unfold SpeakerEditor.jsMapGetOr SpeakerEditor.jsMapGet
  rw [reverse_find?_of_nodup_keys _ _ hkeys, List.find?_map]
  cases hfind : sugs.find? (fun g => g.speaker_id = k) with
  | none =>
    have : sugs.find? ((fun p => decide (p.1 = k)) ∘
        (fun s => (s.speaker_id, s.display_name))) = none := by
      rw [← hfind]
      congr 1
    rw [this]
    simp
  | some g =>
    have : sugs.find? ((fun p => decide (p.1 = k)) ∘
        (fun s => (s.speaker_id, s.display_name))) = some g := by
      rw [← hfind]
      congr 1
    rw [this]
    simp only [Option.map_some]
    have hgmem : g ∈ sugs := List.mem_of_find?_eq_some hfind
    simp [hne g hgmem]

/-- Claim C5: applying a single speaker suggestion removes exactly that
suggestion from the pending list, renames exactly that speaker (other names
and all colors unchanged) and issues one save request for that speaker alone;
applying all updates every speaker with a pending suggestion, leaves the rest
unchanged, and empties the pending list; dismissing removes the suggestion
locally with no server call. -/
theorem spec_C5_suggestion_flows (tid sid : String)
    (st : SpeakerEditor.ComponentState) (sug : SpeakerSuggestion)
    (hids : (st.suggestions.map (fun s => s.speaker_id)).Nodup)
    (hmem : sug ∈ st.suggestions) (hsid : sug.speaker_id = sid)
    (hne : ∀ s ∈ st.suggestions, s.display_name ≠ "") :
    ((SpeakerEditor.handleApplySuggestion tid sid st).2
        = [Request.updateSpeakerNames tid [(sid, sug.display_name)]]
      ∧ (SpeakerEditor.handleApplySuggestion tid sid st).1.speakers
        = st.speakers.map (fun s =>
            if s.id = sid then { s with name := sug.display_name } else s)
      ∧ (SpeakerEditor.handleApplySuggestion tid sid st).1.speakers.map
          (fun s => s.color)
        = st.speakers.map (fun s => s.color)
      ∧ (SpeakerEditor.handleApplySuggestion tid sid st).1.suggestions
        = st.suggestions.erase sug)
    ∧ ((SpeakerEditor.handleApplyAll tid st).2
        = [Request.applyAllSpeakerSuggestions tid]
      ∧ (SpeakerEditor.handleApplyAll tid st).1.speakers
        = st.speakers.map (fun s =>
            match st.suggestions.find? (fun g => g.speaker_id = s.id) with
            | some g => { s with name := g.display_name }
            | none => s)
      ∧ (SpeakerEditor.handleApplyAll tid st).1.suggestions = []
      ∧ (SpeakerEditor.handleApplyAll tid st).1.speakers.map (fun s => s.color)
        = st.speakers.map (fun s => s.color))
    ∧ ((SpeakerEditor.handleDismissSuggestion sid st).2 = []
      ∧ (SpeakerEditor.handleDismissSuggestion sid st).1.speakers = st.speakers
      ∧ (SpeakerEditor.handleDismissSuggestion sid st).1.suggestions
        = st.suggestions.erase sug) := by
  have hfind := find?_speaker_unique st.suggestions sid sug hids hmem hsid
  have herase := filter_speaker_erase st.suggestions sid sug hids hmem hsid
  have happly :
      SpeakerEditor.handleApplySuggestion tid sid st
        = ({ st with
              speakers := st.speakers.map (fun s =>
                if s.id = sid then { s with name := sug.display_name } else s),
              suggestions := st.suggestions.filter
                (fun s => ¬ s.speaker_id = sid),
              savedNames := SpeakerEditor.jsRecordSet st.savedNames sid
                sug.display_name },
           [Request.updateSpeakerNames tid [(sid, sug.display_name)]]) := by
    unfold SpeakerEditor.handleApplySuggestion
    rw [hfind]
  have hAll : (SpeakerEditor.handleApplyAll tid st).1.speakers
      = st.speakers.map (fun s =>
          (⟨s.id,
            SpeakerEditor.jsMapGetOr
              (st.suggestions.map (fun g => (g.speaker_id, g.display_name)))
              s.id s.name,
            s.color⟩ : SpeakerEditor.Speaker)) := rfl
  refine ⟨⟨?_, ?_, ?_, ?_⟩, ⟨rfl, ?_, rfl, ?_⟩, rfl, rfl, ?_⟩
  · rw [happly]
  · rw [happly]
  · rw [happly]
    simp only [List.map_map]
    apply List.map_congr_left
    intro s _
    by_cases h : s.id = sid <;> simp [Function.comp, h]
  · rw [happly]
    exact herase
  · rw [hAll]
    apply List.map_congr_left
    intro s _
    rw [jsMapGetOr_eq_find? st.suggestions s.id s.name hids hne]
    cases st.suggestions.find? (fun g => g.speaker_id = s.id) with
    | none => rfl
    | some g => rfl
  · rw [hAll]
    simp only [List.map_map]
    apply List.map_congr_left
    intro s _
    rfl
  · exact herase

/-- Witness for C5 at a concrete editor state with one pending suggestion. -/
theorem spec_C5_suggestion_flows_witness :
    ((sampleEditorState.suggestions.map (fun s => s.speaker_id)).Nodup
      ∧ sampleSuggestion ∈ sampleEditorState.suggestions
      ∧ sampleSuggestion.speaker_id = "SPEAKER_00"
      ∧ (∀ s ∈ sampleEditorState.suggestions, s.display_name ≠ ""))
    ∧ (SpeakerEditor.handleApplySuggestion "job-1" "SPEAKER_00"
        sampleEditorState).2
      = [Request.updateSpeakerNames "job-1"
          [("SPEAKER_00", sampleSuggestion.display_name)]]
    ∧ (SpeakerEditor.handleApplySuggestion "job-1" "SPEAKER_00"
        sampleEditorState).1.suggestions
      = sampleEditorState.suggestions.erase sampleSuggestion
    ∧ (SpeakerEditor.handleApplyAll "job-1" sampleEditorState).1.suggestions = []
    ∧ (SpeakerEditor.handleDismissSuggestion "SPEAKER_00"
        sampleEditorState).2 = [] := by
  have hids : (sampleEditorState.suggestions.map (fun s => s.speaker_id)).Nodup := by
    simp [sampleEditorState]
  have hmem : sampleSuggestion ∈ sampleEditorState.suggestions :=
    List.mem_singleton.2 rfl
  have hne : ∀ s ∈ sampleEditorState.suggestions, s.display_name ≠ "" := by
    intro s hs
    rw [List.mem_singleton.1 hs]
    simp [sampleSuggestion]
  have h := spec_C5_suggestion_flows "job-1" "SPEAKER_00" sampleEditorState
    sampleSuggestion hids hmem rfl hne
  exact ⟨⟨hids, hmem, rfl, hne⟩, h.1.1, h.1.2.2.2, h.2.1.2.2.1, h.2.2.1⟩

theorem uploadGo_cons_ok (engine model : String) (total c : Nat) (file : String)
    (rest : List (String × Except String Unit)) :
    FileUpload.handleUploadGo engine model total c ((file, Except.ok ()) :: rest)
      = (Request.uploadAudio file engine model
           :: (FileUpload.handleUploadGo engine model total (c + 1) rest).1,
         (((c : ℚ) + 1) / (total : ℚ)) * 100
           :: (FileUpload.handleUploadGo engine model total (c + 1) rest).2.1,
         (FileUpload.handleUploadGo engine model total (c + 1) rest).2.2.1,
         (FileUpload.handleUploadGo engine model total (c + 1) rest).2.2.2) := rfl

theorem uploadGo_all_ok (engine model : String) (total c : Nat)
    (files : List (String × Except String Unit))
    (h : ∀ p ∈ files, p.2 = Except.ok ()) :
    FileUpload.handleUploadGo engine model total c files
      = (files.map (fun p => Request.uploadAudio p.1 engine model),
         (List.range files.length).map
           (fun i => (((c + i + 1 : Nat) : ℚ) / (total : ℚ)) * 100),
         none, true) := by
  induction files generalizing c with
  | nil => rfl
  | cons p rest ih =>
    have hp : p.2 = Except.ok () := h p (List.mem_cons_self p rest)
    obtain ⟨file, res⟩ := p
    simp only at hp
    subst hp
    rw [uploadGo_cons_ok,
      ih (c + 1) (fun q hq => h q (List.mem_cons_of_mem _ hq))]
    simp only [List.map_cons, List.length_cons, List.range_succ_eq_map,
      List.map_map, Prod.mk.injEq]
    refine ⟨trivial, ?_, trivial⟩
    congr 1
    · push_cast
      ring
    · apply List.map_congr_left
      intro i _
      simp only [Function.comp]
      push_cast
      ring

theorem uploadGo_first_failure (engine model err : String) (total c : Nat)
    (good post : List (String × Except String Unit))
    (bad : String × Except String Unit)
    (hgood : ∀ p ∈ good, p.2 = Except.ok ())
    (hbad : bad.2 = Except.error err) :
    FileUpload.handleUploadGo engine model total c (good ++ bad :: post)
      = ((good ++ [bad]).map (fun p => Request.uploadAudio p.1 engine model),
         (List.range good.length).map
           (fun i => (((c + i + 1 : Nat) : ℚ) / (total : ℚ)) * 100),
         some err, false) := by
  induction good generalizing c with
  | nil =>
    obtain ⟨file, res⟩ := bad
    simp only at hbad
    subst hbad
    rfl
  | cons p rest ih =>
    have hp : p.2 = Except.ok () := hgood p (List.mem_cons_self p rest)
    obtain ⟨file, res⟩ := p
    simp only at hp
    subst hp
    rw [List.cons_append, uploadGo_cons_ok,
      ih (c + 1) (fun q hq => hgood q (List.mem_cons_of_mem _ hq))]
    simp only [List.cons_append, List.map_cons, List.length_cons,
      List.range_succ_eq_map, List.map_map, Prod.mk.injEq]
    refine ⟨trivial, ?_, trivial⟩
    congr 1
    · push_cast
      ring
    · apply List.map_congr_left
      intro i _
      simp only [Function.comp]
      push_cast
      ring

theorem uploadGo_requests_are_uploads (engine model : String) (total c : Nat)
    (files : List (String × Except String Unit)) :
    ∀ r ∈ (FileUpload.handleUploadGo engine model total c files).1,
      ∃ f, r = Request.uploadAudio f engine model := by
  induction files generalizing c with
  | nil => intro r hr; cases hr
  | cons p rest ih =>
    obtain ⟨file, res⟩ := p
    cases res with
    | error e =>
      intro r hr
      rcases List.mem_singleton.1 hr with rfl
      exact ⟨file, rfl⟩
    | ok u =>
      cases u
      intro r hr
      rcases List.mem_cons.1 hr with rfl | hr2
      · exact ⟨file, rfl⟩
      · exact ih (c + 1) r hr2

/-- Claim C6: for a non-empty selection the upload handler submits the files
one at a time in list order; after the `i`-th success it reports progress
`(i+1)/total` of 100; on the first failing upload it stops, surfaces that
error, and issues no deletion or rollback of the already-submitted files; the
local file list is cleared only when every file succeeded. -/
theorem spec_C6_sequential_upload (engine model : String)
    (files : List (String × Except String Unit)) (hne : files ≠ []) :
    ((∀ p ∈ files, p.2 = Except.ok ()) →
      FileUpload.handleUpload engine model files
        = ⟨files.map (fun p => Request.uploadAudio p.1 engine model),
           (List.range files.length).map
             (fun i => (((i + 1 : Nat) : ℚ) / (files.length : ℚ)) * 100),
           none, true⟩)
    ∧ (∀ (good post : List (String × Except String Unit))
        (bad : String × Except String Unit) (err : String),
        files = good ++ bad :: post →
        (∀ p ∈ good, p.2 = Except.ok ()) →
        bad.2 = Except.error err →
        FileUpload.handleUpload engine model files
          = ⟨(good ++ [bad]).map (fun p => Request.uploadAudio p.1 engine model),
             (List.range good.length).map
               (fun i => (((i + 1 : Nat) : ℚ) / (files.length : ℚ)) * 100),
             some err, false⟩)
    ∧ (∀ r ∈ (FileUpload.handleUpload engine model files).requests,
        ∃ f, r = Request.uploadAudio f engine model) := by
  have hlen : ¬ files.length = 0 := by
    simpa [List.length_eq_zero] using hne
  refine ⟨?_, ?_, ?_⟩
  · intro hok
    unfold FileUpload.handleUpload
    rw [if_neg hlen, uploadGo_all_ok engine model files.length 0 files hok]
    simp
  · intro good post bad err hsplit hgood hbad
    unfold FileUpload.handleUpload
    rw [if_neg hlen]
    subst hsplit
    rw [uploadGo_first_failure engine model err _ 0 good post bad hgood hbad]
    simp
  · intro r hr
    unfold FileUpload.handleUpload at hr
    rw [if_neg hlen] at hr
    exact uploadGo_requests_are_uploads engine model files.length 0 files r hr

/-- Witness for C6: a two-file selection whose second upload fails — the
handler has submitted both files in order, reported 50 percent after the
first success, surfaced the error, and left the file list uncleared. -/
theorem spec_C6_sequential_upload_witness :
    sampleUploadFiles ≠ []
    ∧ FileUpload.handleUpload "mlx-whisper" "large-v2" sampleUploadFiles
      = ⟨[Request.uploadAudio "a.mp3" "mlx-whisper" "large-v2",
          Request.uploadAudio "b.wav" "mlx-whisper" "large-v2"],
         [50], some "upload failed", false⟩ := by
  have hne : sampleUploadFiles ≠ [] := by simp [sampleUploadFiles]
  have h := spec_C6_sequential_upload "mlx-whisper" "large-v2"
    sampleUploadFiles hne
  have h2 := h.2.1 [("a.mp3", Except.ok ())] []
    ("b.wav", Except.error "upload failed") "upload failed" rfl
    (by
      intro p hp
      rw [List.mem_singleton.1 hp])
    rfl
  refine ⟨hne, ?_⟩
  rw [h2]
  norm_num [sampleUploadFiles, List.range_succ]

/-- Claim C8 as stated is false: the sanitising step keeps `-` and `_`, so it
does not replace every non-alphanumeric character.  For the filename
`a-b.mp3` the code produces `mindmap-a-b.md`, while the claimed derivation
(replace every non-alphanumeric character) would produce `mindmap-a_b.md`. -/
theorem spec_C8_counterexample :
    MindmapViewer.exportName "a-b.mp3" = "a-b"
    ∧ MindmapViewer.exportNameClaimed "a-b.mp3" = "a_b"
    ∧ MindmapViewer.mindmapDownloadName "a-b.mp3" = "mindmap-a-b.md"
    ∧ MindmapViewer.mindmapDownloadName "a-b.mp3"
      ≠ "mindmap-" ++ MindmapViewer.exportNameClaimed "a-b.mp3" ++ ".md" := by
  refine ⟨rfl, rfl, rfl, ?_⟩
  decide

/-- Claim C8, amended: the export filename is derived deterministically by
stripping the final extension and replacing every character that is not an
ASCII letter, digit, hyphen or underscore with an underscore, then prefixing
`mindmap-` / `insights-` and suffixing `.md`; in particular `meeting.mp3`
yields `mindmap-meeting.md` and `insights-meeting.md`. -/
theorem spec_C8_export_names (filename : String) :
    MindmapViewer.mindmapDownloadName filename
      = "mindmap-" ++ MindmapViewer.sanitize (MindmapViewer.stripExt filename)
        ++ ".md"
    ∧ InsightsPanel.insightsDownloadName (some filename)
      = "insights-"
        ++ (if MindmapViewer.exportName filename = "" then "insights"
            else MindmapViewer.exportName filename) ++ ".md"
    ∧ (MindmapViewer.exportName filename).data.all MindmapViewer.isKeptChar
      = true
    ∧ MindmapViewer.mindmapDownloadName "meeting.mp3" = "mindmap-meeting.md"
    ∧ InsightsPanel.insightsDownloadName (some "meeting.mp3")
      = "insights-meeting.md" := by
  refine ⟨rfl, rfl, ?_, rfl, rfl⟩
  rw [List.all_eq_true]
  intro c hc
  simp only [MindmapViewer.exportName, MindmapViewer.sanitize,
    List.mem_map] at hc
  obtain ⟨c0, _, rfl⟩ := hc
  by_cases h : MindmapViewer.isKeptChar c0
  · rwa [if_pos h]
  · rw [if_neg h]
    decide

theorem cleanupTick_quiet (s : String) (c : Nat)
    (input : Fetched (List Operation))
    (hthrow : PostProcessingControls.tickNoThrow input = true)
    (hterm : PostProcessingControls.cleanupTerminalSeen s input = false) :
    PostProcessingControls.cleanupTick s c input
      = PostProcessingControls.timeoutCheck c := by
  cases input with
  | netError => simp [PostProcessingControls.tickNoThrow] at hthrow
  | httpError => rfl
  | ok ops =>
    cases ops with
    | nil => rfl
    | cons op rest =>
      by_cases hge : jsStringGe op.created_at s = true
      · simp only [PostProcessingControls.cleanupTerminalSeen, hge,
          Bool.true_and, Bool.or_eq_false_iff, beq_eq_false_iff_ne,
          ne_eq] at hterm
        simp [PostProcessingControls.cleanupTick, hge, hterm.1, hterm.2]
      · simp [PostProcessingControls.cleanupTick, hge]

theorem insightsOpsCheck_quiet (s tmpl : String) (c : Nat)
    (opsResponse : Fetched (List Operation))
    (hthrow : fetchNoThrow opsResponse = true)
    (hterm : InsightsControls.opsTerminalSeen s tmpl opsResponse = false) :
    InsightsControls.opsCheck s tmpl c opsResponse
      = InsightsControls.timeoutCheck c := by
  cases opsResponse with
  | netError => simp [fetchNoThrow] at hthrow
  | httpError => rfl
  | ok ops =>
    cases ops with
    | nil => rfl
    | cons op rest =>
      simp only [InsightsControls.opsTerminalSeen] at hterm
      simp [InsightsControls.opsCheck, hterm]

theorem insightsTick_quiet (s tmpl : String) (c : Nat)
    (input : Fetched InsightsControls.InsightsResponse × Fetched (List Operation))
    (hthrow : InsightsControls.tickNoThrow input = true)
    (hterm : InsightsControls.terminalSeen s tmpl input = false) :
    InsightsControls.insightsTick s tmpl c input
      = InsightsControls.timeoutCheck c := by
  obtain ⟨f1, f2⟩ := input
  simp only [InsightsControls.tickNoThrow, Bool.and_eq_true] at hthrow
  simp only [InsightsControls.terminalSeen, Bool.or_eq_false_iff] at hterm
  cases f1 with
  | netError => simp [fetchNoThrow] at hthrow
  | httpError =>
    exact insightsOpsCheck_quiet s tmpl c f2 hthrow.2 hterm.2
  | ok data =>
    obtain ⟨meta⟩ := data
    cases meta with
    | none =>
      simp only [InsightsControls.insightsTick]
      exact insightsOpsCheck_quiet s tmpl c f2 hthrow.2 hterm.2
    | some md =>
      have hge : jsStringGe md.created_at s = false := by
        simpa [InsightsControls.fileTerminalSeen] using hterm.1
      simp only [InsightsControls.insightsTick, hge, Bool.false_eq_true,
        if_false]
      exact insightsOpsCheck_quiet s tmpl c f2 hthrow.2 hterm.2

theorem runLoop_timeout {α : Type} (tick : Nat → α → Option LoopReport)
    (M : Nat) (trace : List α) (n : Nat)
    (hquiet : ∀ c a, a ∈ trace → tick c a
      = (if M ≤ c then some LoopReport.timeout else none))
    (hn : n < M) (hlen : M ≤ n + trace.length) :
    runLoop tick n trace = some (M, LoopReport.timeout) := by
  induction trace generalizing n with
  | nil =>
    exfalso
    simp only [List.length_nil] at hlen
    omega
  | cons a rest ih =>
    have hstep := hquiet (n + 1) a (List.mem_cons_self a rest)
    by_cases hc : n + 1 < M
    · have hnone : tick (n + 1) a = none := by
        rw [hstep, if_neg (by omega)]
      simp only [runLoop, hnone]
      refine ih (n + 1) (fun c b hb => hquiet c b (List.mem_cons_of_mem _ hb))
        hc ?_
      simp only [List.length_cons] at hlen
      omega
    · have hM : M = n + 1 := by omega
      have hfire : tick (n + 1) a = some LoopReport.timeout := by
        rw [hstep, if_pos (by omega)]
      simp only [runLoop, hfire, hM]

set_option maxRecDepth 8000 in
/-- Claim C1 as stated is false: a poll tick that throws (network error)
lands in the `catch` block, which skips the `pollCount >= maxPolls` check, so
a trace of thrown ticks keeps the loop running past the 500-poll ceiling with
no timeout report.  Concretely, after 501 polls of the cleanup loop in which
no terminal operation was ever observed, the loop has not terminated. -/
theorem spec_C1_counterexample :
    (List.replicate 501 (Fetched.netError : Fetched (List Operation))).all
      (fun a => !PostProcessingControls.cleanupTerminalSeen
        "2024-01-02T10:00:00" a) = true
    ∧ (List.replicate 501 (Fetched.netError : Fetched (List Operation))).length
      = 501
    ∧ PostProcessingControls.runCleanupLoop "2024-01-02T10:00:00"
        (List.replicate 501 Fetched.netError) = none := by
  refine ⟨?_, rfl, ?_⟩ <;> rfl

/-- Claim C1, amended: both loops poll on a 2000 ms interval; if no terminal
observation arrives and no poll tick throws, the cleanup loop reports a
timeout at exactly poll 500 and the insights loop at exactly poll 60 — two
distinct ceilings (a tick that throws skips the ceiling check, which is the
correction the counterexample forces). -/
theorem spec_C1_poll_ceilings (s tmpl : String)
    (tc : List (Fetched (List Operation)))
    (ti : List (Fetched InsightsControls.InsightsResponse ×
      Fetched (List Operation)))
    (hc1 : tc.all PostProcessingControls.tickNoThrow = true)
    (hc2 : tc.all
      (fun a => !PostProcessingControls.cleanupTerminalSeen s a) = true)
    (hc3 : PostProcessingControls.maxPolls ≤ tc.length)
    (hi1 : ti.all InsightsControls.tickNoThrow = true)
    (hi2 : ti.all (fun a => !InsightsControls.terminalSeen s tmpl a) = true)
    (hi3 : InsightsControls.maxPolls ≤ ti.length) :
    PostProcessingControls.runCleanupLoop s tc
      = some (500, LoopReport.timeout)
    ∧ InsightsControls.runInsightsLoop s tmpl ti
      = some (60, LoopReport.timeout)
    ∧ PostProcessingControls.maxPolls = 500
    ∧ InsightsControls.maxPolls = 60
    ∧ PostProcessingControls.maxPolls ≠ InsightsControls.maxPolls
    ∧ PostProcessingControls.pollIntervalMs = 2000
    ∧ InsightsControls.pollIntervalMs = 2000 := by
  rw [List.all_eq_true] at hc1 hc2 hi1 hi2
  refine ⟨?_, ?_, rfl, rfl, by decide, rfl, rfl⟩
  · show runLoop (PostProcessingControls.cleanupTick s) 0 tc
      = some (PostProcessingControls.maxPolls, LoopReport.timeout)
    apply runLoop_timeout _ _ _ _ ?_ (by decide) (by simpa using hc3)
    intro c a ha
    rw [cleanupTick_quiet s c a (hc1 a ha) (by simpa using hc2 a ha)]
    rfl
  · show runLoop (InsightsControls.insightsTick s tmpl) 0 ti
      = some (InsightsControls.maxPolls, LoopReport.timeout)
    apply runLoop_timeout _ _ _ _ ?_ (by decide) (by simpa using hi3)
    intro c a ha
    rw [insightsTick_quiet s tmpl c a (hi1 a ha) (by simpa using hi2 a ha)]
    rfl

set_option maxRecDepth 8000 in
/-- Witness for the amended C1 at concrete traces: 500 (respectively 60)
polls that all return non-ok responses, with no thrown tick. -/
theorem spec_C1_poll_ceilings_witness :
    ((List.replicate 500 (Fetched.httpError : Fetched (List Operation))).all
        PostProcessingControls.tickNoThrow = true
      ∧ (List.replicate 60 ((Fetched.httpError, Fetched.httpError) :
          Fetched InsightsControls.InsightsResponse ×
            Fetched (List Operation))).all InsightsControls.tickNoThrow = true)
    ∧ PostProcessingControls.runCleanupLoop "2024-01-02T10:00:00"
        (List.replicate 500 Fetched.httpError) = some (500, LoopReport.timeout)
    ∧ InsightsControls.runInsightsLoop "2024-01-02T10:00:00" "it-meeting"
        (List.replicate 60 (Fetched.httpError, Fetched.httpError))
      = some (60, LoopReport.timeout) := by
  have h := spec_C1_poll_ceilings "2024-01-02T10:00:00" "it-meeting"
    (List.replicate 500 Fetched.httpError)
    (List.replicate 60 (Fetched.httpError, Fetched.httpError))
    rfl rfl (by decide) rfl rfl (by decide)
  exact ⟨⟨rfl, rfl⟩, h.1, h.2.1⟩

/-- Claim C2: in both polling loops an operation from the operations endpoint
is treated as a terminal result only if its `created_at` is at or after the
recorded start timestamp (for the insights loop additionally only when it is
a failed operation for the selected template); and when such a terminal
operation has status `failed`, the toast shown to the user contains the
server-reported `error_message` verbatim (as a substring). -/
theorem spec_C2_terminal_gate (s tmpl m : String) (c : Nat)
    (latestOp : Operation) (rest : List Operation) (r : LoopReport) :
    (PostProcessingControls.cleanupTick s c (Fetched.ok (latestOp :: rest))
        = some r → r ≠ LoopReport.timeout →
      jsStringGe latestOp.created_at s = true)
    ∧ (jsStringGe latestOp.created_at s = true →
        latestOp.status = "failed" → latestOp.error_message = some m →
        PostProcessingControls.cleanupTick s c (Fetched.ok (latestOp :: rest))
          = some (LoopReport.failedOp
              ("Post-processing failed: " ++ fallbackError (some m)))
        ∧ List.IsInfix m.data
            ("Post-processing failed: " ++ fallbackError (some m)).data)
    ∧ (InsightsControls.opsCheck s tmpl c (Fetched.ok (latestOp :: rest))
        = some r → r ≠ LoopReport.timeout →
      jsStringGe latestOp.created_at s = true ∧ latestOp.status = "failed"
        ∧ latestOp.template_id = tmpl)
    ∧ (jsStringGe latestOp.created_at s = true →
        latestOp.status = "failed" → latestOp.template_id = tmpl →
        latestOp.error_message = some m →
        InsightsControls.opsCheck s tmpl c (Fetched.ok (latestOp :: rest))
          = some (LoopReport.failedOp ("Failed: " ++ fallbackError (some m)))
        ∧ List.IsInfix m.data ("Failed: " ++ fallbackError (some m)).data) := by
  have hinfix : ∀ pre : String,
      List.IsInfix m.data (pre ++ fallbackError (some m)).data := by
    intro pre
    by_cases hm : m = ""
    · exact ⟨[], (pre ++ fallbackError (some m)).data, by simp [hm]⟩
    · refine ⟨pre.data, [], ?_⟩
      simp [String.data_append, fallbackError, hm]
  refine ⟨?_, ?_, ?_, ?_⟩
  · intro heq hr
    by_cases hge : jsStringGe latestOp.created_at s = true
    · exact hge
    · exfalso
      simp only [PostProcessingControls.cleanupTick, hge,
        Bool.false_eq_true, if_false] at heq
      unfold PostProcessingControls.timeoutCheck at heq
      by_cases hc : PostProcessingControls.maxPolls ≤ c
      · rw [if_pos hc] at heq
        exact hr (Option.some.injEq _ _ ▸ heq.symm)
      · rw [if_neg hc] at heq
        cases heq
  · intro hge hfail hmsg
    have hns : ¬ latestOp.status = "success" := by
      rw [hfail]
      decide
    refine ⟨?_, hmsg ▸ hinfix "Post-processing failed: "⟩
    simp [PostProcessingControls.cleanupTick, hge, hns, hfail, hmsg]
  · intro heq hr
    by_cases hgate : (jsStringGe latestOp.created_at s &&
        (latestOp.status == "failed") &&
        (latestOp.template_id == tmpl)) = true
    · simp only [Bool.and_eq_true, beq_iff_eq] at hgate
      exact ⟨hgate.1.1, hgate.1.2, hgate.2⟩
    · exfalso
      simp only [InsightsControls.opsCheck, hgate, if_false] at heq
      unfold InsightsControls.timeoutCheck at heq
      by_cases hc : InsightsControls.maxPolls ≤ c
      · rw [if_pos hc] at heq
        exact hr (Option.some.injEq _ _ ▸ heq.symm)
      · rw [if_neg hc] at heq
        cases heq
  · intro hge hfail htmpl hmsg
    refine ⟨?_, hmsg ▸ hinfix "Failed: "⟩
    simp [InsightsControls.opsCheck, hge, hfail, htmpl, hmsg]

/-- Witness for C2 at a concrete fresh failed operation carrying the error
message `rate limited`. -/
theorem spec_C2_terminal_gate_witness :
    jsStringGe sampleFailedOp.created_at sampleStartTime = true
    ∧ sampleFailedOp.status = "failed"
    ∧ sampleFailedOp.template_id = "it-meeting"
    ∧ sampleFailedOp.error_message = some "rate limited"
    ∧ PostProcessingControls.cleanupTick sampleStartTime 1
        (Fetched.ok [sampleFailedOp])
      = some (LoopReport.failedOp
          ("Post-processing failed: " ++ fallbackError (some "rate limited")))
    ∧ List.IsInfix "rate limited".data
        ("Post-processing failed: " ++ fallbackError (some "rate limited")).data
    ∧ InsightsControls.opsCheck sampleStartTime "it-meeting" 1
        (Fetched.ok [sampleFailedOp])
      = some (LoopReport.failedOp
          ("Failed: " ++ fallbackError (some "rate limited"))) := by
  have h := spec_C2_terminal_gate sampleStartTime "it-meeting" "rate limited"
    1 sampleFailedOp [] LoopReport.success
  have h2 := h.2.1 rfl rfl rfl
  have h4 := h.2.2.2 rfl rfl rfl rfl
  exact ⟨rfl, rfl, rfl, rfl, h2.1, h2.2, h4.1⟩

theorem prefixLe_le_length (t : ℚ) (l : List ℚ) :
    TranscriptPanel.prefixLe t l ≤ l.length := by
  induction l with
  | nil => exact Nat.le_refl 0
  | cons x xs ih =>
    unfold TranscriptPanel.prefixLe
    by_cases hx : x ≤ t
    · rw [if_pos hx]
      simpa using ih
    · rw [if_neg hx]
      exact Nat.zero_le _

theorem getD_le_of_lt_prefixLe (t : ℚ) (l : List ℚ) (i : Nat)
    (hi : i < TranscriptPanel.prefixLe t l) : l.getD i 0 ≤ t := by
  induction l generalizing i with
  | nil => simp [TranscriptPanel.prefixLe] at hi
  | cons x xs ih =>
    unfold TranscriptPanel.prefixLe at hi
    by_cases hx : x ≤ t
    · rw [if_pos hx] at hi
      cases i with
      | zero => simpa using hx
      | succ j =>
        rw [List.getD_cons_succ]
        exact ih j (by omega)
    · rw [if_neg hx] at hi
      omega

theorem getD_gt_of_prefixLe_le (t : ℚ) (l : List ℚ)
    (hsorted : List.Pairwise (fun a b => a < b) l) (i : Nat)
    (hk : TranscriptPanel.prefixLe t l ≤ i) (hi : i < l.length) :
    t < l.getD i 0 := by
  induction l generalizing i with
  | nil => simp at hi
  | cons x xs ih =>
    rw [List.pairwise_cons] at hsorted
    unfold TranscriptPanel.prefixLe at hk
    by_cases hx : x ≤ t
    · rw [if_pos hx] at hk
      cases i with
      | zero => omega
      | succ j =>
        rw [List.getD_cons_succ]
        exact ih hsorted.2 j (by omega) (by simpa using hi)
    · cases i with
      | zero =>
        rw [List.getD_cons_zero]
        exact lt_of_not_le hx
      | succ j =>
        rw [List.getD_cons_succ]
        have hjlen : j < xs.length := by simpa using hi
        have hmem : xs.getD j 0 ∈ xs := by
          rw [List.getD_eq_getElem xs 0 hjlen]
          exact List.getElem_mem hjlen
        exact lt_trans (lt_of_not_le hx) (hsorted.1 _ hmem)

theorem bsearch_exit_value (k : Nat) (left right : Int) (nearest : Nat)
    (hlr : ¬ left ≤ right) (hk1 : (k : Int) ≤ right + 1)
    (hk2 : left ≤ (k : Int))
    (hE : (left = 0 ∧ nearest = 0) ∨
      (0 < left ∧ (nearest : Int) + 1 = left ∧ nearest < k)) :
    nearest = if k = 0 then 0 else k - 1 := by
  by_cases hk : k = 0 <;> simp only [hk, if_true, if_false] <;> omega

theorem bsearchGo_invariant (starts : List ℚ) (t : ℚ)
    (hsorted : List.Pairwise (fun a b => a < b) starts) (N : Nat) :
    ∀ (left right : Int) (nearest : Nat) (ok : Bool),
      (right + 1 - left).toNat ≤ N →
      0 ≤ left → right < (starts.length : Int) →
      (TranscriptPanel.prefixLe t starts : Int) ≤ right + 1 →
      left ≤ (TranscriptPanel.prefixLe t starts : Int) →
      ((left = 0 ∧ nearest = 0) ∨
        (0 < left ∧ (nearest : Int) + 1 = left
          ∧ nearest < TranscriptPanel.prefixLe t starts)) →
      TranscriptPanel.bsearchGo starts t left right nearest
          = (if TranscriptPanel.prefixLe t starts = 0 then 0
             else TranscriptPanel.prefixLe t starts - 1)
      ∧ TranscriptPanel.bsearchGoChk starts t left right nearest ok
          = (if TranscriptPanel.prefixLe t starts = 0 then 0
             else TranscriptPanel.prefixLe t starts - 1, ok) := by
  induction N with
  | zero =>
    intro left right nearest ok hm h0 hrn hk1 hk2 hE
    have hlr : ¬ left ≤ right := by omega
    have hval := bsearch_exit_value (TranscriptPanel.prefixLe t starts)
      left right nearest hlr hk1 hk2 hE
    rw [TranscriptPanel.bsearchGo, TranscriptPanel.bsearchGoChk,
      dif_neg hlr, dif_neg hlr, hval]
    exact ⟨rfl, rfl⟩
  | succ N ih =>
    intro left right nearest ok hm h0 hrn hk1 hk2 hE
    by_cases hlr : left ≤ right
    · have hm1 : left ≤ (left + right) / 2 := by
        rw [Int.le_ediv_iff_mul_le (by norm_num)]
        omega
      have hm2 : (left + right) / 2 < right + 1 := by
        rw [Int.ediv_lt_iff_lt_mul (by norm_num)]
        omega
      have hmnn : 0 ≤ (left + right) / 2 := le_trans h0 hm1
      have hmc : (((left + right) / 2).toNat : Int) = (left + right) / 2 :=
        Int.toNat_of_nonneg hmnn
      have hmidn : ((left + right) / 2).toNat < starts.length := by omega
      have hacc : (ok && decide (((left + right) / 2).toNat < starts.length))
          = ok := by
        rw [decide_eq_true hmidn, Bool.and_true]
      rw [TranscriptPanel.bsearchGo, TranscriptPanel.bsearchGoChk,
        dif_pos hlr, dif_pos hlr, hacc]
      by_cases heq : starts.getD ((left + right) / 2).toNat 0 = t
      · rw [if_pos heq, if_pos heq]
        have hlo : ((left + right) / 2).toNat < TranscriptPanel.prefixLe t starts := by
          by_contra hcontra
          exact absurd heq (ne_of_gt (getD_gt_of_prefixLe_le t starts hsorted _
            (by omega) hmidn))
        have hhi : TranscriptPanel.prefixLe t starts
            ≤ ((left + right) / 2).toNat + 1 := by
          by_contra hcontra
          have hlen : ((left + right) / 2).toNat + 1 < starts.length :=
            lt_of_lt_of_le (by omega) (prefixLe_le_length t starts)
          have hle : starts.getD (((left + right) / 2).toNat + 1) 0 ≤ t :=
            getD_le_of_lt_prefixLe t starts _ (by omega)
          have hmono : starts.getD ((left + right) / 2).toNat 0
              < starts.getD (((left + right) / 2).toNat + 1) 0 := by
            rw [List.getD_eq_getElem starts 0 hmidn,
              List.getD_eq_getElem starts 0 hlen]
            exact (List.pairwise_iff_getElem.1 hsorted) _ _ hmidn hlen
              (by omega)
          rw [heq] at hmono
          exact absurd (lt_of_lt_of_le hmono hle) (lt_irrefl t)
        have hres : ((left + right) / 2).toNat
            = if TranscriptPanel.prefixLe t starts = 0 then 0
              else TranscriptPanel.prefixLe t starts - 1 := by
          rw [if_neg (by omega)]
          omega
        rw [hres]
        exact ⟨rfl, rfl⟩
      · rw [if_neg heq, if_neg heq]
        by_cases hlt : starts.getD ((left + right) / 2).toNat 0 < t
        · rw [if_pos hlt, if_pos hlt]
          have hmk : ((left + right) / 2).toNat
              < TranscriptPanel.prefixLe t starts := by
            by_contra hcontra
            have hgt := getD_gt_of_prefixLe_le t starts hsorted
              ((left + right) / 2).toNat (by omega) hmidn
            linarith
          exact ih ((left + right) / 2 + 1) right ((left + right) / 2).toNat
            ok (by omega) (by omega) hrn hk1 (by omega)
            (Or.inr ⟨by omega, by omega, hmk⟩)
        · rw [if_neg hlt, if_neg hlt]
          have hkm : TranscriptPanel.prefixLe t starts
              ≤ ((left + right) / 2).toNat := by
            by_contra hcontra
            have := getD_le_of_lt_prefixLe t starts
              ((left + right) / 2).toNat (by omega)
            rcases lt_or_eq_of_le this with h1 | h1
            · exact hlt h1
            · exact heq h1
          exact ih left ((left + right) / 2 - 1) nearest ok (by omega) h0
            (by omega) (by omega) hk2 hE
    · have hval := bsearch_exit_value (TranscriptPanel.prefixLe t starts)
        left right nearest hlr hk1 hk2 hE
      rw [TranscriptPanel.bsearchGo, TranscriptPanel.bsearchGoChk,
        dif_neg hlr, dif_neg hlr, hval]
      exact ⟨rfl, rfl⟩

/-- Claim C10 as stated is false under the usual (weak) reading of "sorted
ascending": with two segments sharing start time 1 and target 1, the search's
equality break returns index 0, although the last segment whose start is
`≤ 1` is index 1. -/
theorem spec_C10_counterexample :
    List.Pairwise
      (fun a b : TranscriptPanel.Segment => a.start ≤ b.start) sampleSegments
    ∧ sampleSegments ≠ []
    ∧ (sampleSegments.map (fun s => s.start)).getD 1 0 ≤ 1
    ∧ TranscriptPanel.scrollToTimestamp sampleSegments 1 = 0 := by
  refine ⟨?_, by simp [sampleSegments], by norm_num [sampleSegments], ?_⟩
  · norm_num [sampleSegments]
  · rw [TranscriptPanel.scrollToTimestamp, TranscriptPanel.bsearchGo]
    norm_num [sampleSegments]

/-- Claim C10, amended to strictly ascending start times: for every non-empty
transcript whose segment starts are strictly increasing, the binary search
returns the index of the last segment whose start is at most the target, or
index 0 when every segment starts after the target, and every array read it
performs is inside the list's bounds. -/
theorem spec_C10_scroll_search (segments : List TranscriptPanel.Segment)
    (timestamp : ℚ) (hne : segments ≠ [])
    (hsorted : List.Pairwise
      (fun a b : TranscriptPanel.Segment => a.start < b.start) segments) :
    TranscriptPanel.scrollToTimestamp segments timestamp < segments.length
    ∧ (((segments.map (fun s => s.start)).getD
          (TranscriptPanel.scrollToTimestamp segments timestamp) 0 ≤ timestamp
        ∧ ∀ j < segments.length,
            (segments.map (fun s => s.start)).getD j 0 ≤ timestamp →
            j ≤ TranscriptPanel.scrollToTimestamp segments timestamp)
      ∨ ((∀ j < segments.length,
            timestamp < (segments.map (fun s => s.start)).getD j 0)
        ∧ TranscriptPanel.scrollToTimestamp segments timestamp = 0))
    ∧ TranscriptPanel.scrollReadsInBounds segments timestamp = true := by
  have hsorted' : List.Pairwise (fun a b => a < b)
      (segments.map (fun s => s.start)) := by
    rw [List.pairwise_map]
    exact hsorted
  have hlen : (segments.map (fun s => s.start)).length = segments.length :=
    List.length_map _ _
  have hn : 0 < segments.length := List.length_pos.2 hne
  have hkle := prefixLe_le_length timestamp (segments.map (fun s => s.start))
  have hinv := bsearchGo_invariant (segments.map (fun s => s.start)) timestamp
    hsorted' segments.length 0 ((segments.length : Int) - 1) 0 true
    (by omega) (by omega) (by omega) (by omega) (by positivity)
    (Or.inl ⟨rfl, rfl⟩)
  have hr : TranscriptPanel.scrollToTimestamp segments timestamp
      = (if TranscriptPanel.prefixLe timestamp
            (segments.map (fun s => s.start)) = 0 then 0
         else TranscriptPanel.prefixLe timestamp
            (segments.map (fun s => s.start)) - 1) := hinv.1
  have hchk : TranscriptPanel.scrollReadsInBounds segments timestamp = true := by
    unfold TranscriptPanel.scrollReadsInBounds
    rw [hinv.2]
  by_cases hk : TranscriptPanel.prefixLe timestamp
      (segments.map (fun s => s.start)) = 0
  · rw [hr, if_pos hk]
    refine ⟨hn, Or.inr ⟨?_, rfl⟩, hchk⟩
    intro j hj
    exact getD_gt_of_prefixLe_le timestamp _ hsorted' j (by omega) (by omega)
  · rw [hr, if_neg hk]
    refine ⟨by omega, Or.inl ⟨?_, ?_⟩, hchk⟩
    · exact getD_le_of_lt_prefixLe timestamp _ _ (by omega)
    · intro j hj hle
      by_contra hcontra
      exact absurd hle (not_le_of_gt
        (getD_gt_of_prefixLe_le timestamp _ hsorted' j (by omega) (by omega)))

/-- Witness for the amended C10 on a strictly sorted three-segment
transcript with target timestamp 7. -/
theorem spec_C10_scroll_search_witness :
    (sampleSortedSegments ≠ []
      ∧ List.Pairwise
          (fun a b : TranscriptPanel.Segment => a.start < b.start)
          sampleSortedSegments)
    ∧ (TranscriptPanel.scrollToTimestamp sampleSortedSegments 7
        < sampleSortedSegments.length
      ∧ (((sampleSortedSegments.map (fun s => s.start)).getD
            (TranscriptPanel.scrollToTimestamp sampleSortedSegments 7) 0 ≤ 7
          ∧ ∀ j < sampleSortedSegments.length,
              (sampleSortedSegments.map (fun s => s.start)).getD j 0 ≤ 7 →
              j ≤ TranscriptPanel.scrollToTimestamp sampleSortedSegments 7)
        ∨ ((∀ j < sampleSortedSegments.length,
              (7 : ℚ) < (sampleSortedSegments.map (fun s => s.start)).getD j 0)
          ∧ TranscriptPanel.scrollToTimestamp sampleSortedSegments 7 = 0))
      ∧ TranscriptPanel.scrollReadsInBounds sampleSortedSegments 7 = true) := by
  have h1 : sampleSortedSegments ≠ [] := by simp [sampleSortedSegments]
  have h2 : List.Pairwise
      (fun a b : TranscriptPanel.Segment => a.start < b.start)
      sampleSortedSegments := by norm_num [sampleSortedSegments]
  exact ⟨⟨h1, h2⟩, spec_C10_scroll_search sampleSortedSegments 7 h1 h2⟩

end TranscribeFlow
